import Mathlib

/-!
Verification of the MSI allocation / IMSIC delivery core.

Shallow embedding of:
  * `src/unnamed/part_000`   — the C `ffs` helper;
  * `src/kernel/irq/msi.c`   — MSI descriptors, per-device registry,
    `msi_alloc_vectors` / `msi_free_vectors` / `msi_device_cleanup`;
  * `src/unnamed/part_003`   — the RISC-V IMSIC driver
    (`imsic_attach`, `imsic_handle_irq`).

External collaborators (the IRQ-domain layer, the device layer) are not part
of the repository; they are modelled from the behavioural contracts in the
specification (§6), as noted on each definition.  Machine integers are
modelled as `Nat`; all quantities handled by the code stay far below 2^32
except where noted, and `ffs` is analysed on the full 32-bit range.
-/

/-! ## Constants -/

/-- Modelled from the spec: `MSI_MAX_VECTORS` lives in `irq/msi.h`, which is
not among the provided sources; spec §6 Limits states `MSI_MAX_VECTORS = 32`
and the test file `src/unnamed/part_001` confirms that 33 vectors are
rejected. -/
def MSI_MAX_VECTORS : Nat := 32

/-- From `src/kernel/include/irqchip/riscv-imsic.h`: `IMSIC_MAX_IDS = 256`. -/
def IMSIC_MAX_IDS : Nat := 256

/-! ## The `ffs` bit-scan helper (`src/unnamed/part_000`)

The C function takes a signed 32-bit `int`.  We model the argument as the
32-bit pattern, a `Nat` below `2^32`.  The C code uses an arithmetic right
shift on `int`; every mask in the function reads only bits 0..30 of the
original word (the cumulative shift never exceeds 30 and every mask is at
most 16 bits wide), so on the range `[0, 2^32)` the logical `Nat` shift used
here agrees with the C arithmetic shift on every examined bit. -/

/-- `ffs` from `src/unnamed/part_000`: the four-stage halving scan. The
running state `(n, i)` mirrors the two C locals. -/
def ffs (i : Nat) : Nat :=
  if i = 0 then 0
  else
    let s1 : Nat × Nat := if i &&& 0xffff = 0 then (1 + 16, i >>> 16) else (1, i)
    let s2 : Nat × Nat := if s1.2 &&& 0xff = 0 then (s1.1 + 8, s1.2 >>> 8) else s1
    let s3 : Nat × Nat := if s2.2 &&& 0xf = 0 then (s2.1 + 4, s2.2 >>> 4) else s2
    let s4 : Nat × Nat := if s3.2 &&& 0x3 = 0 then (s3.1 + 2, s3.2 >>> 2) else s3
    if s4.2 &&& 0x1 = 0 then s4.1 + 1 else s4.1

/-- Trailing-zero count: the index of the lowest set bit (0 for `0`).
Specification-side companion used to state what `ffs` computes. -/
def tzc : Nat → Nat
  | 0 => 0
  | n + 1 => if (n + 1) % 2 = 0 then tzc ((n + 1) / 2) + 1 else 0
decreasing_by exact Nat.div_lt_self (Nat.succ_pos n) (by omega)

/-! ## MSI data model (`src/kernel/irq/msi.c`)

The fields of `struct msi_desc` and `struct msi_device_data` are declared in
`irq/msi.h` (not among the sources); the fields below are exactly those the
code reads and writes.  The intrusive doubly-linked list with sentinel is
modelled as a Lean `List` in traversal (head-to-tail) order; "sentinel is
self-referential" corresponds to the empty list.  The device back-pointer is
modelled as a numeric device id.  Null-pointer argument guards of the C
functions are not representable (all Lean values are non-null); each theorem
about them is conditioned on the non-null case, as the claims are. -/

structure MsiDesc where
  dev : Nat
  hwirq : Nat
  irq : Nat
  msi_attrib : Nat
  multiple : Nat
  refcount : Nat
  deriving DecidableEq, Repr

/-- `struct msi_device_data`: the registry list plus the `num_vectors`
counter (a separate field in the C struct, incremented and decremented
independently of the list splicing). The spin lock has no observable
content in a sequential model. -/
structure MsiDeviceData where
  list : List MsiDesc
  num_vectors : Nat
  deriving DecidableEq, Repr

/-- Modelled from the spec: the IRQ-domain collaborator (spec §6).
`occupied` is the multiset of hwirq ids currently reserved through
`irq_domain_alloc_hwirq_range`, in reservation order; `mappings` is the set
of live `(virq, hwirq)` pairs created by `irq_create_mapping`. -/
structure IrqDomain where
  occupied : List Nat
  mappings : List (Nat × Nat)
  deriving DecidableEq, Repr

/-- The state touched by the MSI allocator: the device registry and the
device's MSI irq-domain. -/
structure MsiState where
  msi_data : MsiDeviceData
  domain : IrqDomain
  deriving DecidableEq, Repr

/-- Modelled from the spec (§6): `irq_domain_alloc_hwirq_range` reserves `n`
consecutive ids starting at the base chosen by the domain; its effect on the
occupancy. -/
def irq_domain_alloc_hwirq_range_occ (occ : List Nat) (base n : Nat) : List Nat :=
  occ ++ (List.range n).map (fun j => base + j)

/-- Modelled from the spec (§6): `irq_domain_free_hwirq_range` releases the
inclusive range `[base, base + n)`. -/
def irq_domain_free_hwirq_range_occ (occ : List Nat) (base n : Nat) : List Nat :=
  occ.filter (fun a => decide (a < base ∨ base + n ≤ a))

/-- Modelled from the spec (§6): `irq_dispose_mapping` tears down the mapping
for a virq. -/
def irq_dispose_mapping (virq : Nat) (maps : List (Nat × Nat)) : List (Nat × Nat) :=
  maps.filter (fun p => decide (p.1 ≠ virq))

/-- Modelled from the spec (§6): `irq_find_mapping` returns the virq mapped
to `hwirq`, or 0. -/
def irq_find_mapping (maps : List (Nat × Nat)) (hwirq : Nat) : Nat :=
  match maps.find? (fun p => decide (p.2 = hwirq)) with
  | some p => p.1
  | none => 0

/-- `msi_desc_alloc_internal` (msi.c:10): `kmalloc(.., KM_ZERO)` yields an
all-zero record; the list head is made self-referential and `refcount` set
to 1. Allocation failure of `kmalloc` itself is decided by the environment
oracle at each call site. -/
def msi_desc_alloc_internal : MsiDesc :=
  { dev := 0, hwirq := 0, irq := 0, msi_attrib := 0, multiple := 0, refcount := 1 }

/-- `msi_desc_free` (msi.c:51): decrement `refcount`; if it is still
positive, return without destroying; otherwise unlink and `kfree`.  Returns
the updated descriptor and whether it was destroyed.  Faithful to the C
unsigned arithmetic whenever `refcount ≥ 1` (the C counter would wrap at 0;
`Nat` subtraction truncates instead, and the theorems are conditioned on
`refcount ≥ 1`). -/
def msi_desc_free (desc : MsiDesc) : MsiDesc × Bool :=
  let d := { desc with refcount := desc.refcount - 1 }
  if 0 < d.refcount then (d, false) else (d, true)

/-- `msi_desc_list_add_locked` (msi.c:87): append to the tail of the
registry, bump `num_vectors` and the descriptor's `refcount`.  The C null
checks cannot fire in a model without null; the function then always
returns 0. -/
def msi_desc_list_add_locked (msi_data : MsiDeviceData) (desc : MsiDesc) : MsiDeviceData :=
  { list := msi_data.list ++ [{ desc with refcount := desc.refcount + 1 }],
    num_vectors := msi_data.num_vectors + 1 }

/-- `msi_device_cleanup` (msi.c:129): walk the registry, unlink every
descriptor, decrement its `refcount`, and `kfree` it exactly when the
decremented count is 0; finally the registry itself is freed.  The result
records, per walked descriptor, its post-decrement value and whether it was
destroyed. -/
def msi_device_cleanup (msi_data : MsiDeviceData) : List (MsiDesc × Bool) :=
  msi_data.list.map (fun desc =>
    let d := { desc with refcount := desc.refcount - 1 }
    (d, d.refcount == 0))

/-- Size-selection loop of `msi_alloc_vectors` (msi.c:183-187):
`nvec = 1; while (nvec <= max_vecs) nvec <<= 1;`.  The extra fuel argument
makes the recursion structural; `msi_chosen_nvec` passes `max_vecs + 1`
fuel, which the loop can never exhaust because `nvec` doubles from 1 and
`2 ^ m > m`. -/
def msi_nvec_loop : Nat → Nat → Nat → Nat
  | 0, _, nvec => nvec
  | fuel + 1, max_vecs, nvec =>
      if nvec ≤ max_vecs then msi_nvec_loop fuel max_vecs (nvec <<< 1) else nvec

/-- The vector count chosen by `msi_alloc_vectors` (msi.c:183-187): grow to
the first power of two exceeding `max_vecs`, then `nvec >>= 1`. -/
def msi_chosen_nvec (max_vecs : Nat) : Nat :=
  msi_nvec_loop (max_vecs + 1) max_vecs 1 >>> 1

/-- Environment oracle for one `msi_alloc_vectors` call: the base returned
by `irq_domain_alloc_hwirq_range` (`none` = failure), whether the `i`-th
descriptor `kmalloc` succeeds, and the virq produced by
`irq_create_mapping` for each hwirq (0 = failure). -/
structure AllocEnv where
  rangeRes : Option Nat
  descAllocOk : Nat → Bool
  virqFor : Nat → Nat

/-- The population loop of `msi_alloc_vectors` (msi.c:200-220): for each
`i`, allocate a descriptor, fill its fields, create the virq mapping, and
append it to the registry; on a descriptor-allocation or mapping failure
the loop stops, yielding the failure index `i` and the state so far (a
failed mapping leaves no mapping in the domain, and the freshly kmalloced
descriptor that was not yet linked is freed on the spot, msi.c:211/217). -/
def msi_fill (dev flags base : Nat) (env : AllocEnv) :
    Nat → Nat → MsiState → Except (Nat × MsiState) MsiState
  | 0, _, st => .ok st
  | rem + 1, i, st =>
      if env.descAllocOk i = false then .error (i, st)
      else
        let hwirq := base + i
        let virq := env.virqFor hwirq
        if virq = 0 then .error (i, st)
        else
          let desc := { msi_desc_alloc_internal with
                        dev := dev, hwirq := hwirq,
                        msi_attrib := flags &&& 0xFFFF, irq := virq }
          let st1 : MsiState :=
            { st with domain :=
                { st.domain with mappings := st.domain.mappings ++ [(virq, hwirq)] } }
          let st2 : MsiState :=
            { st1 with msi_data := msi_desc_list_add_locked st1.msi_data desc }
          msi_fill dev flags base env rem (i + 1) st2

/-- One descriptor created and linked by iteration `i` of the population
loop: `refcount` is 2 (1 from `msi_desc_alloc_internal`, +1 from
`msi_desc_list_add_locked`). -/
def mkLinkedDesc (dev flags base : Nat) (env : AllocEnv) (i : Nat) : MsiDesc :=
  { dev := dev, hwirq := base + i, irq := env.virqFor (base + i),
    msi_attrib := flags &&& 0xFFFF, multiple := 0, refcount := 2 }

/-- Remove the first descriptor with the given hwirq from the registry list,
returning it and the remaining list (the inner search of the rollback loop,
msi.c:231-242). -/
def removeFirstByHwirq (hw : Nat) : List MsiDesc → Option (MsiDesc × List MsiDesc)
  | [] => none
  | d :: rest =>
      if d.hwirq = hw then some (d, rest)
      else match removeFirstByHwirq hw rest with
        | some (x, l) => some (x, d :: l)
        | none => none

/-- The rollback loop of `msi_alloc_vectors` (msi.c:227-243): for
`i - 1, …, 0`, find the descriptor with hwirq `base + i`, dispose its virq
mapping, unlink it, decrement `num_vectors`, and `kfree` it.  When no
descriptor matches, the inner walk falls off the list and nothing happens
for that index. -/
def msi_cleanup (base : Nat) : Nat → MsiState → MsiState
  | 0, st => st
  | i + 1, st =>
      let st' : MsiState :=
        match removeFirstByHwirq (base + i) st.msi_data.list with
        | none => st
        | some (d, rest) =>
            { msi_data := { list := rest, num_vectors := st.msi_data.num_vectors - 1 },
              domain := { st.domain with
                          mappings := irq_dispose_mapping d.irq st.domain.mappings } }
      msi_cleanup base i st'

/-- `msi_alloc_vectors` (msi.c:166-247) on a device whose `msi_data` and
`msi_domain` are present (the C null guards for `dev`, `dev->msi_data` and
`dev->msi_domain` are the non-representable null cases).  Returns the C
return value and the post-call state. -/
def msi_alloc_vectors (dev : Nat) (st : MsiState)
    (min_vecs max_vecs flags : Nat) (env : AllocEnv) : Int × MsiState :=
  if min_vecs = 0 ∨ max_vecs < min_vecs ∨ MSI_MAX_VECTORS < max_vecs then (-1, st)
  else
    let nvec := msi_chosen_nvec max_vecs
    if nvec < min_vecs then (-1, st)
    else
      match env.rangeRes with
      | none => (-1, st)
      | some hwirq_base =>
          let st1 : MsiState :=
            { st with domain :=
                { st.domain with occupied :=
                    irq_domain_alloc_hwirq_range_occ st.domain.occupied hwirq_base nvec } }
          match msi_fill dev flags hwirq_base env nvec 0 st1 with
          | .ok st2 => ((nvec : Int), st2)
          | .error (iF, stF) =>
              let st3 := msi_cleanup hwirq_base iF stF
              let st4 : MsiState :=
                { st3 with domain :=
                    { st3.domain with occupied :=
                        irq_domain_free_hwirq_range_occ st3.domain.occupied hwirq_base nvec } }
              (-1, st4)

/-- The walk of `msi_free_vectors` (msi.c:263-280): for each descriptor,
dispose the virq mapping when `irq ≠ 0`, free its single-id hwirq range,
unlink it, decrement `num_vectors`, and `kfree` it unconditionally.  Returns
the remaining registry list when the walk reaches the sentinel (always the
tail it was left with), the final counter and domain, and the descriptors
passed to `kfree` with the field values they had at that moment. -/
def msi_free_loop : List MsiDesc → Nat → IrqDomain →
    List MsiDesc × Nat × IrqDomain × List MsiDesc
  | [], nv, dom => ([], nv, dom, [])
  | desc :: rest, nv, dom =>
      let maps := if desc.irq ≠ 0 then irq_dispose_mapping desc.irq dom.mappings
                  else dom.mappings
      let occ := irq_domain_free_hwirq_range_occ dom.occupied desc.hwirq 1
      let r := msi_free_loop rest (nv - 1) { occupied := occ, mappings := maps }
      (r.1, r.2.1, r.2.2.1, desc :: r.2.2.2)

/-- `msi_free_vectors` (msi.c:250-283) on a device whose `msi_data` and
`msi_domain` are present.  Returns the post-call state and the list of
destroyed descriptors (as they were when `kfree` ran — note the C code
never decrements `refcount` here). -/
def msi_free_vectors (st : MsiState) : MsiState × List MsiDesc :=
  let r := msi_free_loop st.msi_data.list st.msi_data.num_vectors st.domain
  ({ msi_data := { list := r.1, num_vectors := r.2.1 }, domain := r.2.2.1 }, r.2.2.2)

/-! ## IMSIC driver model (`src/unnamed/part_003`) -/

/-- `struct imsic_file` (riscv-imsic.h:26). -/
structure ImsicFile where
  base : Nat
  hart_id : Nat
  num_ids : Nat
  pending_bitmap : Option Nat
  enabled_bitmap : Option Nat
  deriving DecidableEq, Repr

/-- `struct imsic_data` (riscv-imsic.h:34); the two domain pointers are
tracked as presence flags. -/
structure ImsicData where
  num_harts : Nat
  num_ids : Nat
  base_ppn : Nat
  has_domain : Bool
  has_msi_domain : Bool
  deriving DecidableEq, Repr

/-- The driver's static state: `imsic_initialized`, `primary_imsic_file`
and `primary_imsic_data` (part_003:28-30). -/
structure ImsicState where
  imsic_initialized : Bool
  file : ImsicFile
  data : ImsicData
  deriving DecidableEq, Repr

/-- Modelled from the spec (§6): memory resource #0 of the device —
`start` and the optional `mapped_addr` (0 = not mapped, the C null). -/
structure ImsicResource where
  start : Nat
  mapped_addr : Nat
  deriving DecidableEq, Repr

/-- Environment for one `imsic_attach` call: the result of
`device_get_resource(dev, RES_TYPE_MEM, 0)`, the `riscv,num-ids` device
property (`none` = absent, so `device_get_property_u32` yields the
default), and whether `irq_domain_create_linear` succeeds. -/
structure AttachEnv where
  res : Option ImsicResource
  num_ids_prop : Option Nat
  domain_ok : Bool

/-- `imsic_attach` (part_003:103-156).  Returns the C return value and the
driver state afterwards.  On the domain-creation failure path the static
file and data have already been written (the C code mutates the statics in
place before the failure check) but `imsic_initialized` is untouched. -/
def imsic_attach (st : ImsicState) (env : AttachEnv) : Int × ImsicState :=
  if st.imsic_initialized then (-1, st)
  else
    match env.res with
    | none => (-1, st)
    | some res =>
        let base := if res.mapped_addr ≠ 0 then res.mapped_addr else res.start
        let base_phys := res.start
        let file : ImsicFile :=
          { base := base, hart_id := 0,
            num_ids := env.num_ids_prop.getD IMSIC_MAX_IDS,
            pending_bitmap := none, enabled_bitmap := none }
        let data : ImsicData :=
          { num_harts := 1, num_ids := file.num_ids,
            base_ppn := base_phys >>> 12,
            has_domain := env.domain_ok, has_msi_domain := false }
        if env.domain_ok = false then
          (-1, { st with file := file, data := data })
        else
          (0, { imsic_initialized := true, file := file, data := data })

/-- Observable actions of `imsic_handle_irq`: a `generic_handle_irq`
dispatch, or a CLREIPNUM write clearing a pending id. -/
inductive ImsicAction where
  | dispatch (virq : Nat)
  | clear (id : Nat)
  deriving DecidableEq, Repr

/-- The EIP scan of `imsic_handle_irq` (part_003:243-249): starting from
`hwirq = 0`, read EIP words in index order; at the first non-zero word
compute `hwirq = i * 32 + ffs(pending) - 1` and break.  `readEip i` models
`imsic_read_reg(file, IMSIC_REG_EIP_BASE + i * 4)`. -/
def imsic_scan (readEip : Nat → Nat) : Nat → Nat → Nat
  | _, 0 => 0
  | i, rem + 1 =>
      let pending := readEip i
      if pending ≠ 0 then i * 32 + ffs pending - 1
      else imsic_scan readEip (i + 1) rem

/-- `imsic_handle_irq` (part_003:237-258): scan `(num_ids + 31) / 32` EIP
words; if the computed hwirq is non-zero, look up the virq, dispatch it via
`generic_handle_irq` when non-zero, then write CLREIPNUM with the hwirq.
The returned list is the sequence of observable actions, in program
order. -/
def imsic_handle_irq (num_ids : Nat) (readEip : Nat → Nat)
    (maps : List (Nat × Nat)) : List ImsicAction :=
  let hwirq := imsic_scan readEip 0 ((num_ids + 31) / 32)
  if hwirq ≠ 0 then
    let virq := irq_find_mapping maps hwirq
    (if virq ≠ 0 then [ImsicAction.dispatch virq] else []) ++ [ImsicAction.clear hwirq]
  else []

/-! ## Properties of `tzc` and `ffs` -/

theorem tzc_odd {x : Nat} (h : x % 2 = 1) : tzc x = 0 := by
  cases x with
  | zero => simp at h
  | succ n => simp only [tzc, h]; simp

theorem tzc_even {x : Nat} (he : x % 2 = 0) (hx : x ≠ 0) : tzc x = tzc (x / 2) + 1 := by
  cases x with
  | zero => exact absurd rfl hx
  | succ n => simp only [tzc, he]; simp

theorem tzc_shift : ∀ k : Nat, ∀ x : Nat, x ≠ 0 → x % 2 ^ k = 0 →
    tzc x = tzc (x / 2 ^ k) + k := by
  intro k
  induction k with
  | zero => intro x _ _; simp
  | succ k ih =>
      intro x hx h
      have hdvd : 2 ^ (k + 1) ∣ x := Nat.dvd_of_mod_eq_zero h
      have h2 : x % 2 = 0 := by
        have : (2 : Nat) ∣ x := dvd_trans ⟨2 ^ k, by ring⟩ hdvd
        omega
      have hge : 2 ^ (k + 1) ≤ x := Nat.le_of_dvd (Nat.pos_of_ne_zero hx) hdvd
      have hx2 : x / 2 ≠ 0 := by
        have h2le : (2 : Nat) ≤ 2 ^ (k + 1) := by
          calc (2 : Nat) = 2 ^ 1 := by norm_num
          _ ≤ 2 ^ (k + 1) := Nat.pow_le_pow_right (by norm_num) (by omega)
        omega
      have hmod : (x / 2) % 2 ^ k = 0 := by
        obtain ⟨m, rfl⟩ := hdvd
        have : 2 ^ (k + 1) * m / 2 = 2 ^ k * m := by
          rw [pow_succ, mul_comm (2 ^ k) 2, mul_assoc]
          exact Nat.mul_div_cancel_left _ (by norm_num)
        rw [this]
        exact Nat.mul_mod_right _ _
      have hdd : x / 2 / 2 ^ k = x / 2 ^ (k + 1) := by
        rw [Nat.div_div_eq_div_mul, ← pow_succ']
      rw [tzc_even h2 hx, ih (x / 2) hx2 hmod, hdd]
      omega

theorem tzc_lt_of_mod : ∀ k : Nat, ∀ x : Nat, x % 2 ^ k ≠ 0 → tzc x < k := by
  intro k
  induction k with
  | zero => intro x h; exact absurd (Nat.mod_one x) h
  | succ k ih =>
      intro x h
      have hx : x ≠ 0 := by rintro rfl; simp at h
      rcases Nat.mod_two_eq_zero_or_one x with he | ho
      · have hrec : (x / 2) % 2 ^ k ≠ 0 := by
          intro hc
          apply h
          have : 2 ^ (k + 1) ∣ x := by
            have hd2 : (2 : Nat) ∣ x := Nat.dvd_of_mod_eq_zero he
            obtain ⟨m, rfl⟩ := hd2
            have hm : 2 * m / 2 = m := Nat.mul_div_cancel_left _ (by norm_num)
            rw [hm] at hc
            rw [pow_succ, mul_comm (2 ^ k) 2]
            exact Nat.mul_dvd_mul_left 2 (Nat.dvd_of_mod_eq_zero hc)
          obtain ⟨c, rfl⟩ := this
          exact Nat.mul_mod_right _ _
        have := ih (x / 2) hrec
        rw [tzc_even he hx]
        omega
      · rw [tzc_odd ho]; omega

theorem tzc_spec : ∀ x : Nat, x ≠ 0 → x % 2 ^ tzc x = 0 ∧ (x / 2 ^ tzc x) % 2 = 1 := by
  intro x
  induction x using Nat.strong_induction_on with
  | _ x ih =>
      intro hx
      rcases Nat.mod_two_eq_zero_or_one x with he | ho
      · have hx2 : x / 2 ≠ 0 := by omega
        have hlt : x / 2 < x := Nat.div_lt_self (Nat.pos_of_ne_zero hx) (by norm_num)
        obtain ⟨h1, h2⟩ := ih (x / 2) hlt hx2
        rw [tzc_even he hx]
        have hdvd2 : (2 : Nat) ∣ x := Nat.dvd_of_mod_eq_zero he
        have hxeq : 2 * (x / 2) = x := Nat.mul_div_cancel' hdvd2
        constructor
        · have hdd : 2 ^ (tzc (x / 2) + 1) ∣ x := by
            have hstep : 2 * 2 ^ tzc (x / 2) ∣ 2 * (x / 2) :=
              Nat.mul_dvd_mul_left 2 (Nat.dvd_of_mod_eq_zero h1)
            rw [hxeq] at hstep
            rw [pow_succ, mul_comm (2 ^ tzc (x / 2)) 2]
            exact hstep
          exact Nat.mod_eq_zero_of_dvd hdd
        · have hq : x / 2 ^ (tzc (x / 2) + 1) = x / 2 / 2 ^ tzc (x / 2) := by
            rw [Nat.div_div_eq_div_mul, ← pow_succ']
          rw [hq]
          exact h2
      · rw [tzc_odd ho]
        exact ⟨by simp [Nat.mod_one], by simpa using ho⟩

theorem tzc_two_pow (k : Nat) : tzc (2 ^ k) = k := by
  have h1 : (2 : Nat) ^ k ≠ 0 := Nat.pos_iff_ne_zero.mp (pow_pos (by norm_num) k)
  have := tzc_shift k (2 ^ k) h1 (Nat.mod_self _)
  rw [Nat.div_self (pow_pos (by norm_num) k)] at this
  have h2 : tzc 1 = 0 := by simp [tzc]
  omega

theorem ffs_mask_zero {i w : Nat} (hi : i ≠ 0) (hm : i &&& (2 ^ w - 1) = 0) :
    i >>> w ≠ 0 ∧ tzc (i >>> w) + w = tzc i := by
  rw [Nat.and_pow_two_sub_one_eq_mod] at hm
  have hd : 2 ^ w ∣ i := Nat.dvd_of_mod_eq_zero hm
  have hpos : 0 < i / 2 ^ w :=
    Nat.div_pos (Nat.le_of_dvd (Nat.pos_of_ne_zero hi) hd) (pow_pos (by norm_num) w)
  rw [Nat.shiftRight_eq_div_pow]
  refine ⟨Nat.pos_iff_ne_zero.mp hpos, ?_⟩
  rw [tzc_shift w i hi hm]

theorem ffs_mask_ne {i w : Nat} (hm : i &&& (2 ^ w - 1) ≠ 0) : tzc i < w := by
  rw [Nat.and_pow_two_sub_one_eq_mod] at hm
  exact tzc_lt_of_mod w i hm

theorem tzc_one_le_of_even {i : Nat} (hi : i ≠ 0) (he : i &&& 1 = 0) : 1 ≤ tzc i := by
  rw [Nat.and_one_is_mod] at he
  rw [tzc_even he hi]
  omega

theorem tzc_zero_of_odd {i : Nat} (ho : i &&& 1 ≠ 0) : tzc i = 0 := by
  rw [Nat.and_one_is_mod] at ho
  exact tzc_odd (by omega)

/-- The last two stages of `ffs` (mask `0x3`, then mask `0x1`). -/
theorem ffs_last2 {x i n : Nat} (hi : i ≠ 0) (hlt : tzc i < 4)
    (hn : n + tzc i = tzc x + 1) :
    (if (if i &&& 3 = 0 then (n + 2, i >>> 2) else (n, i)).2 &&& 1 = 0
     then (if i &&& 3 = 0 then (n + 2, i >>> 2) else (n, i)).1 + 1
     else (if i &&& 3 = 0 then (n + 2, i >>> 2) else (n, i)).1) = tzc x + 1 := by
  by_cases c4 : i &&& 3 = 0
  · obtain ⟨h4, e4⟩ := ffs_mask_zero (w := 2) hi (by norm_num; exact c4)
    rw [if_pos c4]
    dsimp only
    by_cases c5 : i >>> 2 &&& 1 = 0
    · rw [if_pos c5]
      have := tzc_one_le_of_even h4 c5
      omega
    · rw [if_neg c5]
      have := tzc_zero_of_odd c5
      omega
  · have hl4 : tzc i < 2 := ffs_mask_ne (w := 2) (by norm_num; exact c4)
    rw [if_neg c4]
    dsimp only
    by_cases c5 : i &&& 1 = 0
    · rw [if_pos c5]
      have := tzc_one_le_of_even hi c5
      omega
    · rw [if_neg c5]
      have := tzc_zero_of_odd c5
      omega

theorem ffs_eq_tzc (x : Nat) (h0 : x ≠ 0) (h32 : x < 2 ^ 32) : ffs x = tzc x + 1 := by
  have hlt32 : tzc x < 32 := tzc_lt_of_mod 32 x (by rw [Nat.mod_eq_of_lt h32]; exact h0)
  unfold ffs
  rw [if_neg h0]
  by_cases c1 : x &&& 0xffff = 0
  · obtain ⟨h1, e1⟩ := ffs_mask_zero (w := 16) h0 (by norm_num; exact c1)
    rw [if_pos c1]
    dsimp only
    by_cases c2 : x >>> 16 &&& 0xff = 0
    · obtain ⟨h2, e2⟩ := ffs_mask_zero (w := 8) h1 (by norm_num; exact c2)
      rw [if_pos c2]
      dsimp only
      by_cases c3 : x >>> 16 >>> 8 &&& 0xf = 0
      · obtain ⟨h3, e3⟩ := ffs_mask_zero (w := 4) h2 (by norm_num; exact c3)
        rw [if_pos c3]
        dsimp only
        exact ffs_last2 h3 (by omega) (by omega)
      · have l3 : tzc (x >>> 16 >>> 8) < 4 := ffs_mask_ne (w := 4) (by norm_num; exact c3)
        rw [if_neg c3]
        dsimp only
        exact ffs_last2 h2 (by omega) (by omega)
    · have l2 : tzc (x >>> 16) < 8 := ffs_mask_ne (w := 8) (by norm_num; exact c2)
      rw [if_neg c2]
      dsimp only
      by_cases c3 : x >>> 16 &&& 0xf = 0
      · obtain ⟨h3, e3⟩ := ffs_mask_zero (w := 4) h1 (by norm_num; exact c3)
        rw [if_pos c3]
        dsimp only
        exact ffs_last2 h3 (by omega) (by omega)
      · have l3 : tzc (x >>> 16) < 4 := ffs_mask_ne (w := 4) (by norm_num; exact c3)
        rw [if_neg c3]
        dsimp only
        exact ffs_last2 h1 (by omega) (by omega)
  · have l1 : tzc x < 16 := ffs_mask_ne (w := 16) (by norm_num; exact c1)
    rw [if_neg c1]
    dsimp only
    by_cases c2 : x &&& 0xff = 0
    · obtain ⟨h2, e2⟩ := ffs_mask_zero (w := 8) h0 (by norm_num; exact c2)
      rw [if_pos c2]
      dsimp only
      by_cases c3 : x >>> 8 &&& 0xf = 0
      · obtain ⟨h3, e3⟩ := ffs_mask_zero (w := 4) h2 (by norm_num; exact c3)
        rw [if_pos c3]
        dsimp only
        exact ffs_last2 h3 (by omega) (by omega)
      · have l3 : tzc (x >>> 8) < 4 := ffs_mask_ne (w := 4) (by norm_num; exact c3)
        rw [if_neg c3]
        dsimp only
        exact ffs_last2 h2 (by omega) (by omega)
    · have l2 : tzc x < 8 := ffs_mask_ne (w := 8) (by norm_num; exact c2)
      rw [if_neg c2]
      dsimp only
      by_cases c3 : x &&& 0xf = 0
      · obtain ⟨h3, e3⟩ := ffs_mask_zero (w := 4) h0 (by norm_num; exact c3)
        rw [if_pos c3]
        dsimp only
        exact ffs_last2 h3 (by omega) (by omega)
      · have l3 : tzc x < 4 := ffs_mask_ne (w := 4) (by norm_num; exact c3)
        rw [if_neg c3]
        dsimp only
        exact ffs_last2 h0 (by omega) (by omega)

theorem tzc_testBit_low {x j : Nat} (hx : x ≠ 0) (hj : j < tzc x) :
    Nat.testBit x j = false := by
  obtain ⟨h1, _⟩ := tzc_spec x hx
  have hdvd : 2 ^ (j + 1) ∣ x :=
    dvd_trans (pow_dvd_pow 2 (by omega)) (Nat.dvd_of_mod_eq_zero h1)
  obtain ⟨m, rfl⟩ := hdvd
  have hdivq : 2 ^ (j + 1) * m / 2 ^ j = 2 * m := by
    have hre : 2 ^ (j + 1) * m = 2 ^ j * (2 * m) := by ring
    rw [hre]
    exact Nat.mul_div_cancel_left (2 * m) (pow_pos (by norm_num : (0 : Nat) < 2) j)
  rw [Nat.testBit_to_div_mod, hdivq]
  simp [Nat.mul_mod_right]

theorem tzc_testBit_set {x : Nat} (hx : x ≠ 0) : Nat.testBit x (tzc x) = true := by
  obtain ⟨_, h2⟩ := tzc_spec x hx
  rw [Nat.testBit_to_div_mod, h2]
  simp

/-- C8: for every 32-bit word `x`, `ffs x = 0` iff `x = 0`; for `x ≠ 0`,
bit `ffs x - 1` of `x` is set and bits `0 .. ffs x - 2` are clear (so
`ffs x` is one plus the index of the lowest set bit); `ffs x` lies in
`{0..32}` for every input, including those with bit 31 set; and
`ffs (1 <<< k) = k + 1` for every `k < 32`. -/
theorem ffs_contract_C8 :
    (∀ x : Nat, x < 2 ^ 32 →
      ((ffs x = 0 ↔ x = 0) ∧
       (x ≠ 0 → Nat.testBit x (ffs x - 1) = true ∧
          ∀ j, j < ffs x - 1 → Nat.testBit x j = false) ∧
       ffs x ≤ 32)) ∧
    (∀ k, k < 32 → ffs (2 ^ k) = k + 1) := by
  constructor
  · intro x h32
    by_cases hx : x = 0
    · subst hx
      refine ⟨by simp [ffs], by simp, by simp [ffs]⟩
    · have heq := ffs_eq_tzc x hx h32
      have hlt32 : tzc x < 32 := tzc_lt_of_mod 32 x (by rw [Nat.mod_eq_of_lt h32]; exact hx)
      refine ⟨⟨fun h => absurd h (by omega), fun h => absurd h hx⟩, fun _ => ?_, by omega⟩
      have hsub : ffs x - 1 = tzc x := by omega
      rw [hsub]
      exact ⟨tzc_testBit_set hx, fun j hj => tzc_testBit_low hx (by omega)⟩
  · intro k hk
    have hne : (2 : Nat) ^ k ≠ 0 := Nat.pos_iff_ne_zero.mp (pow_pos (by norm_num) k)
    have hlt : (2 : Nat) ^ k < 2 ^ 32 := Nat.pow_lt_pow_right (by norm_num) hk
    rw [ffs_eq_tzc _ hne hlt, tzc_two_pow]

/-- Witness for C8 at concrete inputs: `x = 12` and `k = 3`. -/
theorem ffs_contract_C8_witness :
    ffs (2 ^ 3) = 3 + 1 ∧ (ffs 12 = 0 ↔ (12 : Nat) = 0) ∧ ffs 12 ≤ 32 :=
  ⟨ffs_contract_C8.2 3 (by decide),
   (ffs_contract_C8.1 12 (by norm_num)).1,
   (ffs_contract_C8.1 12 (by norm_num)).2.2⟩

/-! ## Properties of the MSI vector allocator -/

theorem msi_chosen_nvec_char :
    ∀ m, m < 33 → 1 ≤ m →
      msi_chosen_nvec m ≤ m ∧ m < 2 * msi_chosen_nvec m ∧
      ∃ k, k < 6 ∧ msi_chosen_nvec m = 2 ^ k := by decide

theorem msi_chosen_nvec_largest {m j : Nat} (hm1 : 1 ≤ m) (hm2 : m ≤ 32)
    (hj : 2 ^ j ≤ m) : 2 ^ j ≤ msi_chosen_nvec m := by
  obtain ⟨hle, hlt, k, hk6, hpow⟩ := msi_chosen_nvec_char m (by omega) hm1
  rw [hpow] at hlt ⊢
  have hjk : j ≤ k := by
    by_contra hc
    push_neg at hc
    have hmono : (2 : Nat) ^ (k + 1) ≤ 2 ^ j :=
      Nat.pow_le_pow_right (by norm_num) (by omega)
    have hkk : (2 : Nat) ^ (k + 1) = 2 * 2 ^ k := by rw [pow_succ']
    omega
  exact Nat.pow_le_pow_right (by norm_num) hjk

theorem range_map_succ_shift {α : Type} (f : Nat → α) (n : Nat) :
    (List.range (n + 1)).map f = f 0 :: (List.range n).map (fun j => f (j + 1)) := by
  rw [List.range_succ_eq_map, List.map_cons, List.map_map]
  rfl

theorem msi_fill_ok (dev flags base : Nat) (env : AllocEnv) :
    ∀ rem i st st', msi_fill dev flags base env rem i st = .ok st' →
      st'.msi_data.list = st.msi_data.list ++
        (List.range rem).map (fun j => mkLinkedDesc dev flags base env (i + j)) ∧
      st'.msi_data.num_vectors = st.msi_data.num_vectors + rem ∧
      st'.domain.occupied = st.domain.occupied ∧
      ∀ j, j < rem → env.virqFor (base + (i + j)) ≠ 0 := by
  intro rem
  induction rem with
  | zero =>
      intro i st st' h
      simp only [msi_fill] at h
      cases h
      simp
  | succ rem ih =>
      intro i st st' h
      simp only [msi_fill] at h
      by_cases ha : env.descAllocOk i = false
      · rw [if_pos ha] at h; cases h
      · rw [if_neg ha] at h
        by_cases hv : env.virqFor (base + i) = 0
        · rw [if_pos hv] at h; cases h
        · rw [if_neg hv] at h
          obtain ⟨hl, hn, ho, hq⟩ := ih (i + 1) _ st' h
          refine ⟨?_, ?_, by simpa using ho, ?_⟩
          · rw [hl, range_map_succ_shift]
            simp only [msi_desc_list_add_locked, List.append_assoc]
            congr 1
            rw [List.singleton_append]
            congr 1
            refine List.map_congr_left ?_
            intro a _
            have harg : i + 1 + a = i + (a + 1) := by omega
            rw [harg]
          · simp only [msi_desc_list_add_locked] at hn
            omega
          · intro j hj
            rcases Nat.eq_zero_or_pos j with rfl | hpos
            · simpa using hv
            · have := hq (j - 1) (by omega)
              have harg : base + (i + 1 + (j - 1)) = base + (i + j) := by omega
              rw [harg] at this
              exact this

theorem msi_fill_err (dev flags base : Nat) (env : AllocEnv) :
    ∀ rem i st iF stF, msi_fill dev flags base env rem i st = .error (iF, stF) →
      ∃ m, m ≤ rem ∧ iF = i + m ∧
      stF.msi_data.list = st.msi_data.list ++
        (List.range m).map (fun j => mkLinkedDesc dev flags base env (i + j)) ∧
      stF.msi_data.num_vectors = st.msi_data.num_vectors + m ∧
      stF.domain.occupied = st.domain.occupied := by
  intro rem
  induction rem with
  | zero => intro i st iF stF h; simp only [msi_fill] at h; cases h
  | succ rem ih =>
      intro i st iF stF h
      simp only [msi_fill] at h
      by_cases ha : env.descAllocOk i = false
      · rw [if_pos ha] at h
        cases h
        exact ⟨0, by omega, by omega, by simp, by simp, rfl⟩
      · rw [if_neg ha] at h
        by_cases hv : env.virqFor (base + i) = 0
        · rw [if_pos hv] at h
          cases h
          exact ⟨0, by omega, by omega, by simp, by simp, rfl⟩
        · rw [if_neg hv] at h
          obtain ⟨m, hm, hiF, hl, hn, ho⟩ := ih (i + 1) _ iF stF h
          refine ⟨m + 1, by omega, by omega, ?_, ?_, by simpa using ho⟩
          · rw [hl, range_map_succ_shift]
            simp only [msi_desc_list_add_locked, List.append_assoc]
            congr 1
            rw [List.singleton_append]
            congr 1
            refine List.map_congr_left ?_
            intro a _
            have harg : i + 1 + a = i + (a + 1) := by omega
            rw [harg]
          · simp only [msi_desc_list_add_locked] at hn
            omega

theorem msi_fill_no_err (dev flags base : Nat) (env : AllocEnv)
    (ha : ∀ i, env.descAllocOk i = true) (hv : ∀ h, env.virqFor h ≠ 0) :
    ∀ rem i st, ∃ st', msi_fill dev flags base env rem i st = .ok st' := by
  intro rem
  induction rem with
  | zero => intro i st; exact ⟨st, rfl⟩
  | succ rem ih =>
      intro i st
      simp only [msi_fill]
      rw [if_neg (by simp [ha i]), if_neg (hv (base + i))]
      exact ih (i + 1) _

theorem removeFirstByHwirq_append (hw : Nat) (d : MsiDesc) (hd : d.hwirq = hw) :
    ∀ l1 : List MsiDesc, (∀ e ∈ l1, e.hwirq ≠ hw) →
      removeFirstByHwirq hw (l1 ++ [d]) = some (d, l1) := by
  intro l1
  induction l1 with
  | nil => intro _; simp [removeFirstByHwirq, hd]
  | cons e rest ih =>
      intro hall
      have hne : e.hwirq ≠ hw := hall e (by simp)
      simp only [List.cons_append, removeFirstByHwirq]
      rw [if_neg hne]
      simp only [List.append_eq]
      rw [ih (fun x hx => hall x (by simp [hx]))]

theorem msi_cleanup_exact (dev flags base : Nat) (env : AllocEnv) :
    ∀ m (orig : List MsiDesc) (nv : Nat) (dom : IrqDomain),
      (∀ e ∈ orig, ∀ j, j < m → e.hwirq ≠ base + j) →
      (msi_cleanup base m
        ⟨⟨orig ++ (List.range m).map (fun j => mkLinkedDesc dev flags base env j),
          nv + m⟩, dom⟩).msi_data = ⟨orig, nv⟩ ∧
      (msi_cleanup base m
        ⟨⟨orig ++ (List.range m).map (fun j => mkLinkedDesc dev flags base env j),
          nv + m⟩, dom⟩).domain.occupied = dom.occupied := by
  intro m
  induction m with
  | zero => intro orig nv dom _; simp [msi_cleanup]
  | succ m ih =>
      intro orig nv dom hsep
      have hfind : removeFirstByHwirq (base + m)
          (orig ++ (List.range (m + 1)).map (fun j => mkLinkedDesc dev flags base env j)) =
          some (mkLinkedDesc dev flags base env m,
            orig ++ (List.range m).map (fun j => mkLinkedDesc dev flags base env j)) := by
        rw [List.range_succ, List.map_append, ← List.append_assoc]
        refine removeFirstByHwirq_append (base + m) _ rfl _ ?_
        intro e he
        rcases List.mem_append.mp he with h1 | h2
        · exact hsep e h1 m (by omega)
        · obtain ⟨j, hj, rfl⟩ := List.mem_map.mp h2
          simp only [List.mem_range] at hj
          simp only [mkLinkedDesc]
          omega
      simp only [msi_cleanup, hfind]
      have hnv : nv + (m + 1) - 1 = nv + m := by omega
      rw [hnv]
      exact ih orig nv _ (fun e he j hj => hsep e he j (by omega))

theorem filter_out_range (base n : Nat) :
    ∀ occ : List Nat, (∀ a ∈ occ, a < base ∨ base + n ≤ a) →
      irq_domain_free_hwirq_range_occ
        (irq_domain_alloc_hwirq_range_occ occ base n) base n = occ := by
  intro occ hocc
  unfold irq_domain_free_hwirq_range_occ irq_domain_alloc_hwirq_range_occ
  rw [List.filter_append]
  have h1 : occ.filter (fun a => decide (a < base ∨ base + n ≤ a)) = occ := by
    apply List.filter_eq_self.mpr
    intro a ha
    simpa using hocc a ha
  have h2 : ((List.range n).map (fun j => base + j)).filter
      (fun a => decide (a < base ∨ base + n ≤ a)) = [] := by
    apply List.filter_eq_nil_iff.mpr
    intro a ha
    obtain ⟨j, hj, rfl⟩ := List.mem_map.mp ha
    simp only [List.mem_range] at hj
    simp
    omega
  rw [h1, h2, List.append_nil]

theorem msi_free_loop_spec :
    ∀ (l : List MsiDesc) (nv : Nat) (dom : IrqDomain),
      (msi_free_loop l nv dom).1 = [] ∧
      (msi_free_loop l nv dom).2.1 = nv - l.length ∧
      (msi_free_loop l nv dom).2.2.2 = l := by
  intro l
  induction l with
  | nil => intro nv dom; simp [msi_free_loop]
  | cons d rest ih =>
      intro nv dom
      simp only [msi_free_loop]
      refine ⟨(ih _ _).1, ?_, ?_⟩
      · rw [(ih _ _).2.1]
        simp only [List.length_cons]
        omega
      · rw [(ih _ _).2.2]

/-! ## Claim theorems for the MSI allocator -/

/-- C1: every failed `msi_alloc_vectors` call — whether it fails on argument
validation, size selection, hwirq-range reservation, descriptor allocation,
or mapping creation at any iteration — leaves the registry list, the
`num_vectors` counter, and the MSI-domain hwirq occupancy exactly as they
were before the call.  The hypothesis states the contract of the external
range allocator: a granted base denotes ids that were free (disjoint from
the current occupancy, hence from the hwirqs of currently linked
descriptors). -/
theorem msi_alloc_vectors_fail_preserves
    (dev min_vecs max_vecs flags : Nat) (st : MsiState) (env : AllocEnv)
    (hfresh : ∀ base, env.rangeRes = some base →
      (∀ a ∈ st.domain.occupied,
        a < base ∨ base + msi_chosen_nvec max_vecs ≤ a) ∧
      (∀ d ∈ st.msi_data.list, ∀ j, j < msi_chosen_nvec max_vecs →
        d.hwirq ≠ base + j))
    (hfail : (msi_alloc_vectors dev st min_vecs max_vecs flags env).1 = -1) :
    (msi_alloc_vectors dev st min_vecs max_vecs flags env).2.msi_data.list =
      st.msi_data.list ∧
    (msi_alloc_vectors dev st min_vecs max_vecs flags env).2.msi_data.num_vectors =
      st.msi_data.num_vectors ∧
    (msi_alloc_vectors dev st min_vecs max_vecs flags env).2.domain.occupied =
      st.domain.occupied := by
  by_cases hg : min_vecs = 0 ∨ max_vecs < min_vecs ∨ MSI_MAX_VECTORS < max_vecs
  · have heq : msi_alloc_vectors dev st min_vecs max_vecs flags env = (-1, st) := by
      simp only [msi_alloc_vectors, if_pos hg]
    rw [heq]
    exact ⟨rfl, rfl, rfl⟩
  · by_cases hsz : msi_chosen_nvec max_vecs < min_vecs
    · have heq : msi_alloc_vectors dev st min_vecs max_vecs flags env = (-1, st) := by
        simp only [msi_alloc_vectors, if_neg hg, if_pos hsz]
      rw [heq]
      exact ⟨rfl, rfl, rfl⟩
    · cases hres : env.rangeRes with
      | none =>
          have heq : msi_alloc_vectors dev st min_vecs max_vecs flags env = (-1, st) := by
            simp only [msi_alloc_vectors, if_neg hg, if_neg hsz, hres]
          rw [heq]
          exact ⟨rfl, rfl, rfl⟩
      | some base =>
          obtain ⟨hdisj, hdescs⟩ := hfresh base hres
          cases hfill : msi_fill dev flags base env (msi_chosen_nvec max_vecs) 0
              { st with
                domain := { st.domain with
                            occupied := irq_domain_alloc_hwirq_range_occ
                                          st.domain.occupied base
                                          (msi_chosen_nvec max_vecs) } } with
          | ok st2 =>
              have heq : msi_alloc_vectors dev st min_vecs max_vecs flags env =
                  ((msi_chosen_nvec max_vecs : Int), st2) := by
                simp only [msi_alloc_vectors, if_neg hg, if_neg hsz, hres, hfill]
              rw [heq] at hfail
              simp only at hfail
              omega
          | error p =>
              obtain ⟨iF, stF⟩ := p
              have heq : msi_alloc_vectors dev st min_vecs max_vecs flags env =
                  (-1, { msi_cleanup base iF stF with
                         domain := { (msi_cleanup base iF stF).domain with
                                     occupied := irq_domain_free_hwirq_range_occ
                                                   (msi_cleanup base iF stF).domain.occupied
                                                   base (msi_chosen_nvec max_vecs) } }) := by
                simp only [msi_alloc_vectors, if_neg hg, if_neg hsz, hres, hfill]
              rw [heq]
              dsimp only
              obtain ⟨m, hm, hiF, hlF, hnF, hoF⟩ :=
                msi_fill_err dev flags base env _ 0 _ iF stF hfill
              simp only [Nat.zero_add] at hlF hnF hoF hiF
              subst hiF
              have hstF : stF = ⟨⟨st.msi_data.list ++
                  (List.range iF).map (fun j => mkLinkedDesc dev flags base env j),
                  st.msi_data.num_vectors + iF⟩, stF.domain⟩ := by
                cases stF with
                | mk md dm =>
                    cases md with
                    | mk l n =>
                        simp only at hlF hnF
                        simp [hlF, hnF]
              rw [hstF]
              obtain ⟨hc1, hc2⟩ := msi_cleanup_exact dev flags base env iF
                st.msi_data.list st.msi_data.num_vectors stF.domain
                (fun e he j hj => hdescs e he j (by omega))
              refine ⟨?_, ?_, ?_⟩
              · rw [hc1]
              · rw [hc1]
              · rw [hc2, hoF]
                exact filter_out_range base (msi_chosen_nvec max_vecs)
                  st.domain.occupied hdisj

theorem msi_alloc_vectors_success_shape
    (dev min_vecs max_vecs flags : Nat) (st : MsiState) (env : AllocEnv)
    (hsucc : (msi_alloc_vectors dev st min_vecs max_vecs flags env).1 ≠ -1) :
    min_vecs ≠ 0 ∧ min_vecs ≤ max_vecs ∧ max_vecs ≤ MSI_MAX_VECTORS ∧
    min_vecs ≤ msi_chosen_nvec max_vecs ∧
    ∃ base, env.rangeRes = some base ∧
    ∃ st2, msi_fill dev flags base env (msi_chosen_nvec max_vecs) 0
        { st with
          domain := { st.domain with
                      occupied := irq_domain_alloc_hwirq_range_occ
                                    st.domain.occupied base
                                    (msi_chosen_nvec max_vecs) } } = .ok st2 ∧
      msi_alloc_vectors dev st min_vecs max_vecs flags env =
        ((msi_chosen_nvec max_vecs : Int), st2) := by
  by_cases hg : min_vecs = 0 ∨ max_vecs < min_vecs ∨ MSI_MAX_VECTORS < max_vecs
  · exact absurd (by simp only [msi_alloc_vectors, if_pos hg]) hsucc
  · by_cases hsz : msi_chosen_nvec max_vecs < min_vecs
    · exact absurd (by simp only [msi_alloc_vectors, if_neg hg, if_pos hsz]) hsucc
    · cases hres : env.rangeRes with
      | none =>
          exact absurd (by simp only [msi_alloc_vectors, if_neg hg, if_neg hsz, hres]) hsucc
      | some base =>
          cases hfill : msi_fill dev flags base env (msi_chosen_nvec max_vecs) 0
              { st with
                domain := { st.domain with
                            occupied := irq_domain_alloc_hwirq_range_occ
                                          st.domain.occupied base
                                          (msi_chosen_nvec max_vecs) } } with
          | ok st2 =>
              refine ⟨by omega, by omega, by omega, by omega, base, rfl, st2, hfill, ?_⟩
              simp only [msi_alloc_vectors, if_neg hg, if_neg hsz, hres, hfill]
          | error p =>
              obtain ⟨iF, stF⟩ := p
              refine absurd ?_ hsucc
              simp only [msi_alloc_vectors, if_neg hg, if_neg hsz, hres, hfill]

/-- C7: after `msi_free_vectors` on a device with a registry and an
msi_domain, `num_vectors` is 0 and the registry list is empty (the sentinel
is self-referential), for any prior contents satisfying the registry
invariant that the counter equals the list length. -/
theorem msi_free_vectors_empties (st : MsiState)
    (hinv : st.msi_data.num_vectors = st.msi_data.list.length) :
    (msi_free_vectors st).1.msi_data.num_vectors = 0 ∧
    (msi_free_vectors st).1.msi_data.list = [] := by
  obtain ⟨h1, h2, _⟩ :=
    msi_free_loop_spec st.msi_data.list st.msi_data.num_vectors st.domain
  simp only [msi_free_vectors]
  exact ⟨by rw [h2, hinv]; omega, h1⟩

/-- Registry with two linked refcount-2 descriptors, used by witnesses. -/
def wTwoState : MsiState :=
  ⟨⟨[⟨1, 5, 7, 0, 0, 2⟩, ⟨1, 6, 8, 0, 0, 2⟩], 2⟩, ⟨[5, 6], [(7, 5), (8, 6)]⟩⟩

/-- Witness for C7 at a concrete registry holding two descriptors. -/
theorem msi_free_vectors_empties_witness :
    (msi_free_vectors wTwoState).1.msi_data.num_vectors = 0 ∧
    (msi_free_vectors wTwoState).1.msi_data.list = [] :=
  msi_free_vectors_empties wTwoState (by decide)

/-- Registry with one linked refcount-2 descriptor. -/
def wOneState : MsiState := ⟨⟨[⟨1, 5, 7, 0, 0, 2⟩], 1⟩, ⟨[5], [(7, 5)]⟩⟩

/-- C5 counterexample: `msi_free_vectors` (msi.c:278) calls `kfree` on every
walked descriptor without ever decrementing its refcount; here it destroys a
descriptor whose refcount is still 2, so it is not true that every one of
`msi_desc_free`, `msi_free_vectors`, `msi_device_cleanup` destroys a
descriptor only after its refcount has been decremented to zero. -/
theorem msi_free_vectors_kfree_at_refcount_two :
    (msi_free_vectors wOneState).2 = [⟨1, 5, 7, 0, 0, 2⟩] ∧
    (⟨1, 5, 7, 0, 0, 2⟩ : MsiDesc).refcount = 2 := by decide

/-- C5 amended: `msi_desc_free` destroys its descriptor exactly when the
decremented refcount reaches zero, and `msi_device_cleanup` destroys a
walked descriptor exactly when its decremented refcount is zero; but
`msi_free_vectors` destroys every registered descriptor unconditionally and
never decrements a refcount (the destroyed records carry their refcounts
unchanged). -/
theorem msi_refcount_destruction_discipline :
    (∀ desc : MsiDesc, 1 ≤ desc.refcount →
      ((msi_desc_free desc).2 = true ↔ desc.refcount = 1) ∧
      (msi_desc_free desc).1.refcount = desc.refcount - 1) ∧
    (∀ d : MsiDeviceData, ∀ p ∈ msi_device_cleanup d,
      (p.2 = true ↔ p.1.refcount = 0)) ∧
    (∀ st : MsiState, (msi_free_vectors st).2 = st.msi_data.list) := by
  refine ⟨?_, ?_, ?_⟩
  · intro desc h1
    simp only [msi_desc_free]
    by_cases hz : 0 < desc.refcount - 1
    · rw [if_pos hz]
      constructor
      · constructor
        · intro hc; cases hc
        · intro hc; omega
      · rfl
    · rw [if_neg hz]
      constructor
      · simp only [true_iff]
        omega
      · rfl
  · intro d p hp
    simp only [msi_device_cleanup, List.mem_map] at hp
    obtain ⟨desc, _, rfl⟩ := hp
    simp [beq_iff_eq]
  · intro st
    simp only [msi_free_vectors]
    exact (msi_free_loop_spec st.msi_data.list st.msi_data.num_vectors st.domain).2.2

/-- Witness for the amended C5 at concrete descriptors and registries. -/
theorem msi_refcount_destruction_discipline_witness :
    ((msi_desc_free ⟨1, 5, 7, 0, 0, 2⟩).2 = true ↔ (2 : Nat) = 1) ∧
    (msi_free_vectors wTwoState).2 = wTwoState.msi_data.list :=
  ⟨(msi_refcount_destruction_discipline.1 ⟨1, 5, 7, 0, 0, 2⟩ (by decide)).1,
   msi_refcount_destruction_discipline.2.2 wTwoState⟩

/-- Empty registry and empty domain, used by witnesses. -/
def wEmptyState : MsiState := ⟨⟨[], 0⟩, ⟨[], []⟩⟩

/-- Environment in which every allocation step succeeds. -/
def wGoodEnv : AllocEnv := ⟨some 10, fun _ => true, fun h => h + 1⟩

/-- Environment in which the descriptor kmalloc fails from iteration 1 on. -/
def wFailEnv : AllocEnv := ⟨some 10, fun i => decide (i = 0), fun h => h + 1⟩

/-- Witness for C1: a request for 2 vectors whose second descriptor
allocation fails; the rollback restores the empty registry and occupancy. -/
theorem msi_alloc_vectors_fail_preserves_witness :
    (msi_alloc_vectors 0 wEmptyState 2 2 0 wFailEnv).1 = -1 ∧
    (msi_alloc_vectors 0 wEmptyState 2 2 0 wFailEnv).2.msi_data.list =
      wEmptyState.msi_data.list ∧
    (msi_alloc_vectors 0 wEmptyState 2 2 0 wFailEnv).2.msi_data.num_vectors =
      wEmptyState.msi_data.num_vectors ∧
    (msi_alloc_vectors 0 wEmptyState 2 2 0 wFailEnv).2.domain.occupied =
      wEmptyState.domain.occupied := by
  have h := msi_alloc_vectors_fail_preserves 0 2 2 0 wEmptyState wFailEnv
    (by
      intro base hb
      constructor
      · intro a ha
        simp [wEmptyState] at ha
      · intro d hd
        simp [wEmptyState] at hd)
    (by decide)
  exact ⟨by decide, h.1, h.2.1, h.2.2⟩

/-- C2: with a device holding a registry and an msi_domain and an
environment in which reservation, descriptor allocation and mapping all
succeed, `msi_alloc_vectors` fails exactly when `min_vecs = 0`,
`min_vecs > max_vecs`, `max_vecs > MSI_MAX_VECTORS = 32`, or the chosen
power of two is below `min_vecs`; the chosen count is the largest power of
two at most `max_vecs`; size selection always succeeds when `min_vecs = 1`;
and on success the return value equals the chosen power of two. -/
theorem msi_alloc_vectors_size_selection
    (dev min_vecs max_vecs flags : Nat) (st : MsiState) (env : AllocEnv)
    (base : Nat) (hres : env.rangeRes = some base)
    (halloc : ∀ i, env.descAllocOk i = true)
    (hvirq : ∀ h, env.virqFor h ≠ 0) :
    ((msi_alloc_vectors dev st min_vecs max_vecs flags env).1 = -1 ↔
      (min_vecs = 0 ∨ max_vecs < min_vecs ∨ MSI_MAX_VECTORS < max_vecs ∨
        msi_chosen_nvec max_vecs < min_vecs)) ∧
    (1 ≤ max_vecs → max_vecs ≤ MSI_MAX_VECTORS →
      (∃ k, k < 6 ∧ msi_chosen_nvec max_vecs = 2 ^ k) ∧
      msi_chosen_nvec max_vecs ≤ max_vecs ∧
      (∀ j, 2 ^ j ≤ max_vecs → 2 ^ j ≤ msi_chosen_nvec max_vecs)) ∧
    (min_vecs = 1 → 1 ≤ max_vecs → max_vecs ≤ MSI_MAX_VECTORS →
      (msi_alloc_vectors dev st min_vecs max_vecs flags env).1 ≠ -1) ∧
    ((msi_alloc_vectors dev st min_vecs max_vecs flags env).1 ≠ -1 →
      (msi_alloc_vectors dev st min_vecs max_vecs flags env).1 =
        (msi_chosen_nvec max_vecs : Int)) := by
  have hsucc0 : ∀ hg : ¬(min_vecs = 0 ∨ max_vecs < min_vecs ∨
      MSI_MAX_VECTORS < max_vecs),
      ∀ hsz : ¬(msi_chosen_nvec max_vecs < min_vecs),
      (msi_alloc_vectors dev st min_vecs max_vecs flags env).1 =
        (msi_chosen_nvec max_vecs : Int) := by
    intro hg hsz
    obtain ⟨st2, hfill⟩ := msi_fill_no_err dev flags base env halloc hvirq
      (msi_chosen_nvec max_vecs) 0
      { st with
        domain := { st.domain with
                    occupied := irq_domain_alloc_hwirq_range_occ
                                  st.domain.occupied base
                                  (msi_chosen_nvec max_vecs) } }
    simp only [msi_alloc_vectors, if_neg hg, if_neg hsz, hres, hfill]
  have hnvpos : ∀ hg : ¬(min_vecs = 0 ∨ max_vecs < min_vecs ∨
      MSI_MAX_VECTORS < max_vecs), 1 ≤ msi_chosen_nvec max_vecs := by
    intro hg
    have h1 : 1 ≤ max_vecs := by omega
    have h2 : max_vecs < 33 := by
      have : MSI_MAX_VECTORS = 32 := rfl
      omega
    have hlt := (msi_chosen_nvec_char max_vecs h2 h1).2.1
    omega
  refine ⟨⟨?_, ?_⟩, ?_, ?_, ?_⟩
  · intro hfail
    by_contra hc
    push_neg at hc
    obtain ⟨h1, h2, h3, h4⟩ := hc
    have := hsucc0 (by omega) (by omega)
    rw [this] at hfail
    have := hnvpos (by omega)
    omega
  · intro hcase
    by_cases hg : min_vecs = 0 ∨ max_vecs < min_vecs ∨ MSI_MAX_VECTORS < max_vecs
    · simp only [msi_alloc_vectors, if_pos hg]
    · by_cases hsz : msi_chosen_nvec max_vecs < min_vecs
      · simp only [msi_alloc_vectors, if_neg hg, if_pos hsz]
      · exact absurd hcase (by push_neg; exact ⟨by omega, by omega, by omega, by omega⟩)
  · intro h1 h2
    have h2' : max_vecs < 33 := by
      have : MSI_MAX_VECTORS = 32 := rfl
      omega
    obtain ⟨hle, hlt, k, hk6, hpow⟩ := msi_chosen_nvec_char max_vecs h2' h1
    exact ⟨⟨k, hk6, hpow⟩, hle,
      fun j hj => msi_chosen_nvec_largest h1 (by omega) hj⟩
  · intro hmin h1 h2
    have hg : ¬(min_vecs = 0 ∨ max_vecs < min_vecs ∨ MSI_MAX_VECTORS < max_vecs) := by
      omega
    have hsz : ¬(msi_chosen_nvec max_vecs < min_vecs) := by
      have := hnvpos hg
      omega
    rw [hsucc0 hg hsz]
    have := hnvpos hg
    omega
  · intro hsucc
    obtain ⟨h1, h2, h3, h4, _⟩ :=
      msi_alloc_vectors_success_shape dev min_vecs max_vecs flags st env hsucc
    exact hsucc0 (by omega) (by omega)

/-- Witness for C2 at `min_vecs = 3`, `max_vecs = 7` (chosen count 4). -/
theorem msi_alloc_vectors_size_selection_witness :
    ((msi_alloc_vectors 0 wEmptyState 3 7 0 wGoodEnv).1 = -1 ↔
      ((3 : Nat) = 0 ∨ (7 : Nat) < 3 ∨ MSI_MAX_VECTORS < 7 ∨
        msi_chosen_nvec 7 < 3)) ∧
    ((msi_alloc_vectors 0 wEmptyState 3 7 0 wGoodEnv).1 ≠ -1 →
      (msi_alloc_vectors 0 wEmptyState 3 7 0 wGoodEnv).1 =
        (msi_chosen_nvec 7 : Int)) := by
  have h := msi_alloc_vectors_size_selection 0 3 7 0 wEmptyState wGoodEnv 10 rfl
    (fun _ => rfl) (fun h => Nat.succ_ne_zero h)
  exact ⟨h.1, h.2.2.2⟩

/-- C3: every successful `msi_alloc_vectors` returning `n` yields a power of
two with `min_vecs ≤ n ≤ max_vecs`; `num_vectors` grows by exactly `n`; the
`n` new descriptors are appended to the registry in insertion order with
strictly consecutive hwirqs starting at the reserved base; and — provided
every previously linked descriptor already had a non-zero virq, which is the
registry invariant — every descriptor reachable from the registry has a
non-zero virq. -/
theorem msi_alloc_vectors_success_spec
    (dev min_vecs max_vecs flags : Nat) (st : MsiState) (env : AllocEnv)
    (hvirt : ∀ d ∈ st.msi_data.list, d.irq ≠ 0)
    (hsucc : (msi_alloc_vectors dev st min_vecs max_vecs flags env).1 ≠ -1) :
    ∃ (n : Nat) (base : Nat) (L : List MsiDesc),
      (msi_alloc_vectors dev st min_vecs max_vecs flags env).1 = (n : Int) ∧
      env.rangeRes = some base ∧
      (∃ k, n = 2 ^ k) ∧ min_vecs ≤ n ∧ n ≤ max_vecs ∧
      (msi_alloc_vectors dev st min_vecs max_vecs flags env).2.msi_data.num_vectors =
        st.msi_data.num_vectors + n ∧
      (msi_alloc_vectors dev st min_vecs max_vecs flags env).2.msi_data.list =
        st.msi_data.list ++ L ∧
      L.length = n ∧
      (∀ j, ∀ hj : j < L.length,
        (L.get ⟨j, hj⟩).hwirq = base + j ∧ (L.get ⟨j, hj⟩).irq ≠ 0) ∧
      (∀ d ∈ (msi_alloc_vectors dev st min_vecs max_vecs flags env).2.msi_data.list,
        d.irq ≠ 0) := by
  obtain ⟨hm0, hmm, hmx, hmn, base, hres, st2, hfill, heq⟩ :=
    msi_alloc_vectors_success_shape dev min_vecs max_vecs flags st env hsucc
  obtain ⟨hl, hn, _, hq⟩ := msi_fill_ok dev flags base env _ 0 _ st2 hfill
  simp only [Nat.zero_add] at hl hn hq
  have hmax1 : 1 ≤ max_vecs := by omega
  have hmax2 : max_vecs < 33 := by
    have : MSI_MAX_VECTORS = 32 := rfl
    omega
  obtain ⟨hle, hlt, k, hk6, hpow⟩ := msi_chosen_nvec_char max_vecs hmax2 hmax1
  refine ⟨msi_chosen_nvec max_vecs, base,
    (List.range (msi_chosen_nvec max_vecs)).map
      (fun j => mkLinkedDesc dev flags base env j), ?_, hres, ⟨k, hpow⟩,
    hmn, hle, ?_, ?_, ?_, ?_, ?_⟩
  · rw [heq]
  · rw [heq]
    simpa using hn
  · rw [heq]
    simpa using hl
  · simp
  · intro j hj
    simp only [List.length_map, List.length_range] at hj
    constructor
    · simp [List.get_eq_getElem, List.getElem_map, List.getElem_range, mkLinkedDesc]
    · simp only [List.get_eq_getElem, List.getElem_map, List.getElem_range, mkLinkedDesc]
      exact hq j hj
  · rw [heq]
    simp only
    rw [hl]
    intro d hd
    rcases List.mem_append.mp hd with hold | hnew
    · exact hvirt d hold
    · obtain ⟨j, hj, rfl⟩ := List.mem_map.mp hnew
      simp only [List.mem_range] at hj
      simp only [mkLinkedDesc]
      exact hq j hj

/-- Witness for C3: allocating between 3 and 7 vectors on an empty registry
succeeds (with 4 vectors). -/
theorem msi_alloc_vectors_success_spec_witness :
    ∃ (n : Nat) (base : Nat) (L : List MsiDesc),
      (msi_alloc_vectors 0 wEmptyState 3 7 0 wGoodEnv).1 = (n : Int) ∧
      wGoodEnv.rangeRes = some base ∧
      (∃ k, n = 2 ^ k) ∧ 3 ≤ n ∧ n ≤ 7 ∧
      (msi_alloc_vectors 0 wEmptyState 3 7 0 wGoodEnv).2.msi_data.num_vectors =
        wEmptyState.msi_data.num_vectors + n ∧
      (msi_alloc_vectors 0 wEmptyState 3 7 0 wGoodEnv).2.msi_data.list =
        wEmptyState.msi_data.list ++ L ∧
      L.length = n ∧
      (∀ j, ∀ hj : j < L.length,
        (L.get ⟨j, hj⟩).hwirq = base + j ∧ (L.get ⟨j, hj⟩).irq ≠ 0) ∧
      (∀ d ∈ (msi_alloc_vectors 0 wEmptyState 3 7 0 wGoodEnv).2.msi_data.list,
        d.irq ≠ 0) :=
  msi_alloc_vectors_success_spec 0 3 7 0 wEmptyState wGoodEnv
    (by intro d hd; simp [wEmptyState] at hd) (by decide)

/-- C10: descriptors linked by `msi_alloc_vectors` carry refcount 2 (one
from creation, one from list insertion); `msi_device_cleanup` decrements
each walked descriptor once and destroys only those reaching zero, so after
a successful allocation on a registry whose descriptors all carry
refcount 2 it unlinks every descriptor but destroys none, leaving each
drained record with refcount 1. -/
theorem msi_device_cleanup_after_alloc_destroys_none
    (dev min_vecs max_vecs flags : Nat) (st : MsiState) (env : AllocEnv)
    (hpre : ∀ d ∈ st.msi_data.list, d.refcount = 2)
    (hsucc : (msi_alloc_vectors dev st min_vecs max_vecs flags env).1 ≠ -1) :
    (∀ d ∈ (msi_alloc_vectors dev st min_vecs max_vecs flags env).2.msi_data.list,
      d.refcount = 2) ∧
    (∀ p ∈ msi_device_cleanup
        (msi_alloc_vectors dev st min_vecs max_vecs flags env).2.msi_data,
      p.2 = false ∧ p.1.refcount = 1) := by
  obtain ⟨_, _, _, _, base, hres, st2, hfill, heq⟩ :=
    msi_alloc_vectors_success_shape dev min_vecs max_vecs flags st env hsucc
  obtain ⟨hl, _, _, _⟩ := msi_fill_ok dev flags base env _ 0 _ st2 hfill
  simp only [Nat.zero_add] at hl
  have hall : ∀ d ∈ (msi_alloc_vectors dev st min_vecs max_vecs flags env).2.msi_data.list,
      d.refcount = 2 := by
    rw [heq]
    simp only
    rw [hl]
    intro d hd
    rcases List.mem_append.mp hd with hold | hnew
    · exact hpre d hold
    · obtain ⟨j, _, rfl⟩ := List.mem_map.mp hnew
      rfl
  refine ⟨hall, ?_⟩
  intro p hp
  simp only [msi_device_cleanup, List.mem_map] at hp
  obtain ⟨desc, hdesc, rfl⟩ := hp
  have h2 := hall desc hdesc
  simp [h2]

/-- Witness for C10: a successful single-vector allocation on an empty
registry, followed by `msi_device_cleanup`. -/
theorem msi_device_cleanup_after_alloc_destroys_none_witness :
    (∀ d ∈ (msi_alloc_vectors 0 wEmptyState 1 1 0 wGoodEnv).2.msi_data.list,
      d.refcount = 2) ∧
    (∀ p ∈ msi_device_cleanup
        (msi_alloc_vectors 0 wEmptyState 1 1 0 wGoodEnv).2.msi_data,
      p.2 = false ∧ p.1.refcount = 1) :=
  msi_device_cleanup_after_alloc_destroys_none 0 1 1 0 wEmptyState wGoodEnv
    (by intro d hd; simp [wEmptyState] at hd) (by decide)

/-! ## Claim theorems for the IMSIC driver -/

theorem imsic_scan_first (readEip : Nat → Nat) :
    ∀ rem i k, k < rem → (∀ j, j < k → readEip (i + j) = 0) →
      readEip (i + k) ≠ 0 →
      imsic_scan readEip i rem = (i + k) * 32 + ffs (readEip (i + k)) - 1 := by
  intro rem
  induction rem with
  | zero => intro i k hk; omega
  | succ rem ih =>
      intro i k hk hzero hnz
      rcases Nat.eq_zero_or_pos k with rfl | hpos
      · simp only [imsic_scan]
        rw [if_pos (by simpa using hnz)]
        simp
      · have h0 : readEip i = 0 := by simpa using hzero 0 hpos
        simp only [imsic_scan]
        rw [if_neg (by simp [h0])]
        have := ih (i + 1) (k - 1) (by omega)
          (fun j hj => by
            have := hzero (j + 1) (by omega)
            have harg : i + 1 + j = i + (j + 1) := by omega
            rw [harg]
            exact this)
          (by
            have harg : i + 1 + (k - 1) = i + k := by omega
            rw [harg]
            exact hnz)
        have harg : i + 1 + (k - 1) = i + k := by omega
        rw [harg] at this
        exact this

/-- C4: `imsic_handle_irq` scans EIP words in index order; when the first
non-zero word sits at index `k`, the handler computes
`hwirq = 32 k + ffs(word) - 1`; if that hwirq is non-zero it invokes
`generic_handle_irq` on `irq_find_mapping`'s result exactly when that virq
is non-zero and then writes CLREIPNUM with the hwirq; if the computed hwirq
is zero (including when id 0 is the only pending id) the handler performs
no dispatch and no clear. -/
theorem imsic_handle_irq_dispatch
    (num_ids k : Nat) (readEip : Nat → Nat) (maps : List (Nat × Nat))
    (hk : k < (num_ids + 31) / 32)
    (hzero : ∀ j, j < k → readEip j = 0)
    (hnz : readEip k ≠ 0) :
    imsic_handle_irq num_ids readEip maps =
      (if k * 32 + ffs (readEip k) - 1 = 0 then []
       else
        (if irq_find_mapping maps (k * 32 + ffs (readEip k) - 1) ≠ 0
         then [ImsicAction.dispatch
                (irq_find_mapping maps (k * 32 + ffs (readEip k) - 1))]
         else []) ++
        [ImsicAction.clear (k * 32 + ffs (readEip k) - 1)]) := by
  have hscan := imsic_scan_first readEip ((num_ids + 31) / 32) 0 k hk
    (fun j hj => by simpa using hzero j hj) (by simpa using hnz)
  simp only [Nat.zero_add] at hscan
  simp only [imsic_handle_irq, hscan]
  by_cases hz : k * 32 + ffs (readEip k) - 1 = 0
  · rw [if_neg (by simpa using hz), if_pos hz]
  · rw [if_pos hz, if_neg hz]

/-- Witness for C4: EIP word 0 has bit 5 set (`ffs 32 = 6`, hwirq 5), the
domain maps hwirq 5 to virq 7: the handler dispatches virq 7 then clears
id 5.  Hypotheses are discharged at `k = 0` with word value 32. -/
theorem imsic_handle_irq_dispatch_witness :
    imsic_handle_irq 64 (fun j => if j = 0 then 32 else 0) [(7, 5)] =
      (if 0 * 32 + ffs ((fun j : Nat => if j = 0 then 32 else 0) 0) - 1 = 0 then []
       else
        (if irq_find_mapping [(7, 5)]
              (0 * 32 + ffs ((fun j : Nat => if j = 0 then 32 else 0) 0) - 1) ≠ 0
         then [ImsicAction.dispatch
                (irq_find_mapping [(7, 5)]
                  (0 * 32 + ffs ((fun j : Nat => if j = 0 then 32 else 0) 0) - 1))]
         else []) ++
        [ImsicAction.clear
          (0 * 32 + ffs ((fun j : Nat => if j = 0 then 32 else 0) 0) - 1)]) :=
  imsic_handle_irq_dispatch 64 0 (fun j => if j = 0 then 32 else 0) [(7, 5)]
    (by decide) (fun j hj => absurd hj (Nat.not_lt_zero j)) (by decide)

/-- C6: a second `imsic_attach` while `imsic_initialized` is true fails and
leaves the whole driver state (in particular the flag) untouched; every
failing attach — missing memory resource #0 or IRQ-domain creation
failure — returns -1 without mutating `imsic_initialized`; and a successful
attach sets `imsic_initialized` to true. -/
theorem imsic_attach_initialization_discipline
    (st : ImsicState) (env : AttachEnv) :
    (st.imsic_initialized = true → imsic_attach st env = (-1, st)) ∧
    ((imsic_attach st env).1 = -1 →
      (imsic_attach st env).2.imsic_initialized = st.imsic_initialized) ∧
    ((imsic_attach st env).1 = 0 →
      (imsic_attach st env).2.imsic_initialized = true) := by
  refine ⟨?_, ?_, ?_⟩
  · intro hinit
    simp only [imsic_attach, hinit, if_true]
  · intro hfail
    by_cases hinit : st.imsic_initialized = true
    · simp only [imsic_attach, hinit, if_true]
    · rw [Bool.not_eq_true] at hinit
      cases hres : env.res with
      | none =>
          have heq : imsic_attach st env = (-1, st) := by
            simp [imsic_attach, hinit, hres]
          rw [heq]
      | some r =>
          by_cases hdom : env.domain_ok = false
          · simp [imsic_attach, hinit, hres, hdom]
          · have h0 : (imsic_attach st env).1 = 0 := by
              simp [imsic_attach, hinit, hres, hdom]
            rw [h0] at hfail
            exact absurd hfail (by decide)
  · intro hok
    by_cases hinit : st.imsic_initialized = true
    · have hm : (imsic_attach st env).1 = -1 := by
        simp [imsic_attach, hinit]
      rw [hm] at hok
      exact absurd hok (by decide)
    · rw [Bool.not_eq_true] at hinit
      cases hres : env.res with
      | none =>
          have hm : (imsic_attach st env).1 = -1 := by
            simp [imsic_attach, hinit, hres]
          rw [hm] at hok
          exact absurd hok (by decide)
      | some r =>
          by_cases hdom : env.domain_ok = false
          · have hm : (imsic_attach st env).1 = -1 := by
              simp [imsic_attach, hinit, hres, hdom]
            rw [hm] at hok
            exact absurd hok (by decide)
          · simp [imsic_attach, hinit, hres, hdom]

/-- An uninitialized IMSIC driver state, used by the attach witnesses. -/
def wFreshImsic : ImsicState :=
  ⟨false, ⟨0, 0, 0, none, none⟩, ⟨0, 0, 0, false, false⟩⟩

/-- An attach environment with a memory resource at physical 0x1000, no
`riscv,num-ids` property, and a domain creation that succeeds. -/
def wAttachEnv : AttachEnv := ⟨some ⟨0x1000, 0⟩, none, true⟩

/-- Witness for C6: a successful first attach sets the flag; a second attach
on the resulting state fails and changes nothing. -/
theorem imsic_attach_initialization_discipline_witness :
    ((imsic_attach wFreshImsic wAttachEnv).1 = 0 →
      (imsic_attach wFreshImsic wAttachEnv).2.imsic_initialized = true) ∧
    imsic_attach (imsic_attach wFreshImsic wAttachEnv).2 wAttachEnv =
      (-1, (imsic_attach wFreshImsic wAttachEnv).2) :=
  ⟨(imsic_attach_initialization_discipline wFreshImsic wAttachEnv).2.2,
   (imsic_attach_initialization_discipline
      (imsic_attach wFreshImsic wAttachEnv).2 wAttachEnv).1 (by decide)⟩

/-- C9 counterexample: `imsic_attach` copies the `riscv,num-ids` property
into `num_ids` without clamping; with the property set to 257 the attach
succeeds and the file's `num_ids` is 257 > 256, so "num_ids is at most 256
after every successful attach" fails on the code. -/
theorem imsic_attach_num_ids_unclamped :
    (imsic_attach wFreshImsic ⟨some ⟨0x1000, 0⟩, some 257, true⟩).1 = 0 ∧
    (imsic_attach wFreshImsic ⟨some ⟨0x1000, 0⟩, some 257, true⟩).2.file.num_ids = 257 ∧
    ¬((imsic_attach wFreshImsic ⟨some ⟨0x1000, 0⟩, some 257, true⟩).2.file.num_ids ≤
        IMSIC_MAX_IDS) := by decide

/-- C9 amended: after every successful `imsic_attach` the file's `num_ids`
equals the `riscv,num-ids` device property when present, and defaults to
`IMSIC_MAX_IDS = 256` when the property is absent; consequently it is at
most 256 whenever the property is absent or itself at most 256 (the code
performs no clamping). -/
theorem imsic_attach_num_ids_spec (st : ImsicState) (env : AttachEnv)
    (hok : (imsic_attach st env).1 = 0) :
    (imsic_attach st env).2.file.num_ids = env.num_ids_prop.getD IMSIC_MAX_IDS ∧
    (env.num_ids_prop = none →
      (imsic_attach st env).2.file.num_ids ≤ IMSIC_MAX_IDS) ∧
    (∀ v, env.num_ids_prop = some v → v ≤ IMSIC_MAX_IDS →
      (imsic_attach st env).2.file.num_ids ≤ IMSIC_MAX_IDS) := by
  by_cases hinit : st.imsic_initialized = true
  · have hm : (imsic_attach st env).1 = -1 := by
      simp [imsic_attach, hinit]
    rw [hm] at hok
    exact absurd hok (by decide)
  · rw [Bool.not_eq_true] at hinit
    cases hres : env.res with
    | none =>
        have hm : (imsic_attach st env).1 = -1 := by
          simp [imsic_attach, hinit, hres]
        rw [hm] at hok
        exact absurd hok (by decide)
    | some r =>
        by_cases hdom : env.domain_ok = false
        · have hm : (imsic_attach st env).1 = -1 := by
            simp [imsic_attach, hinit, hres, hdom]
          rw [hm] at hok
          exact absurd hok (by decide)
        · refine ⟨?_, ?_, ?_⟩
          · simp [imsic_attach, hinit, hres, hdom]
          · intro hnone
            simp [imsic_attach, hinit, hres, hdom, hnone, IMSIC_MAX_IDS]
          · intro v hv hle
            simp [imsic_attach, hinit, hres, hdom, hv]
            exact hle

/-- Witness for the amended C9 on a successful attach without the
property. -/
theorem imsic_attach_num_ids_spec_witness :
    (imsic_attach wFreshImsic wAttachEnv).2.file.num_ids =
      wAttachEnv.num_ids_prop.getD IMSIC_MAX_IDS ∧
    (wAttachEnv.num_ids_prop = none →
      (imsic_attach wFreshImsic wAttachEnv).2.file.num_ids ≤ IMSIC_MAX_IDS) :=
  ⟨(imsic_attach_num_ids_spec wFreshImsic wAttachEnv (by decide)).1,
   (imsic_attach_num_ids_spec wFreshImsic wAttachEnv (by decide)).2.1⟩
